import Mathlib

/-!
Shallow embedding of the production build orchestrator in `build.ts`:
CLI value coercion (`parseValue`), argument parsing (`parseArgs`),
file-size formatting (`formatFileSize`), and the build pipeline
(`buildProgram`: clean → discover → build → report) with its typed
errors (`CleanError` / `BuildError`).

Strings are handled through their character lists (`String.data`), with
executable helpers mirroring the JavaScript string operations used by
the source (`startsWith`, `includes`, `split`, `trim`, `slice`,
`replace` of the kebab-case regex). JavaScript numbers are modelled
exactly (Nat / ℚ): all arithmetic performed by the source on the values
the claims concern (integer flag values, byte sizes below 2^53 and
their divisions by powers of 1024) is exact in IEEE doubles as well.
-/

set_option autoImplicit false

namespace BuildScript

/-- Boolean test that `p` is a prefix of the character list `l`
(JavaScript `String.prototype.startsWith`). -/
def startsWithChars : List Char → List Char → Bool
  | [], _ => true
  | _ :: _, [] => false
  | p :: ps, c :: cs => p = c && startsWithChars ps cs

/-- Boolean test that character `c` occurs in `l`
(JavaScript `String.prototype.includes` for a single character). -/
def hasChar (c : Char) : List Char → Bool
  | [] => false
  | x :: xs => x = c || hasChar c xs

/-- Boolean test that `needle` occurs contiguously in the second list
(JavaScript `String.prototype.includes` for a multi-character
search string). -/
def hasSubstr (needle : List Char) : List Char → Bool
  | [] => needle.isEmpty
  | c :: rest => startsWithChars needle (c :: rest) || hasSubstr needle rest

/-- Splits a character list at every occurrence of `sep`, keeping empty
segments (JavaScript `String.prototype.split` with a one-character
separator: `"".split` gives `[""]`, separators at the ends give empty
segments). The result is always non-empty. -/
def splitList (sep : Char) : List Char → List (List Char)
  | [] => [[]]
  | c :: rest =>
    let r := splitList sep rest
    if c = sep then [] :: r
    else (c :: r.headD []) :: r.tail

/-- Removes whitespace from both ends (JavaScript
`String.prototype.trim`, restricted to the ASCII whitespace the parsed
flag values contain). -/
def trimChars (l : List Char) : List Char :=
  ((l.dropWhile Char.isWhitespace).reverse.dropWhile Char.isWhitespace).reverse

/-- Numeric value of an all-digit character list
(JavaScript `parseInt(value, 10)` on a string matching `^\d+$`; exact,
whereas a double loses precision above 2^53 — no claim concerns such
values). -/
def digitsToNat (l : List Char) : Nat :=
  l.foldl (fun acc c => acc * 10 + (c.toNat - 48)) 0

/-- Test for the regex `^\d+$`. -/
def isDigits (l : List Char) : Bool :=
  !l.isEmpty && l.all Char.isDigit

/-- Test for the regex `^\d*\.\d+$`. -/
def isFloatLit : List Char → Bool
  | [] => false
  | c :: rest => if c = '.' then isDigits rest else c.isDigit && isFloatLit rest

/-- Replaces every `-x` (hyphen followed by an ASCII lowercase letter)
by the uppercased letter, scanning left to right without overlap:
the `toCamelCase` helper of `build.ts`, a global replace of the
pattern `-([a-z])` by the upper-cased captured letter. -/
def camelChars : List Char → List Char
  | [] => []
  | [c] => [c]
  | c :: d :: rest =>
    if c = '-' ∧ d.isLower then d.toUpper :: camelChars rest
    else c :: camelChars (d :: rest)

/-- Converts kebab-case to camelCase for CLI flags (`toCamelCase` in
`build.ts`). -/
def toCamelCase (s : String) : String :=
  String.mk (camelChars s.data)

/-- Result of `parseValue` in `build.ts`: a typed scalar or a list of
strings. A decimal literal (`^\d*\.\d+$`) is kept textually — its
floating-point value is never consumed by the code under claim. -/
inductive PV where
  | bool : Bool → PV
  | num : Nat → PV
  | float : String → PV
  | str : String → PV
  | list : List String → PV
deriving DecidableEq, Repr

/-- Parses string values into appropriate types (`parseValue` in
`build.ts`): `"true"`/`"false"` → boolean, `^\d+$` → integer,
`^\d*\.\d+$` → float, a string containing a comma → list of trimmed
substrings, otherwise the original string. -/
def parseValue (value : String) : PV :=
  if value = "true" then .bool true
  else if value = "false" then .bool false
  else if isDigits value.data then .num (digitsToNat value.data)
  else if isFloatLit value.data then .float value
  else if hasChar ',' value.data then
    .list ((splitList ',' value.data).map (fun l => String.mk (trimChars l)))
  else .str value

/-- A value stored at a top-level key of the configuration object.
`arr` is a JavaScript array of strings together with any extra named
properties later assigned onto it (`typeof` of an array is `"object"`,
so the dotted-key branch of `parseArgs` retains it and writes the child
onto it); `obj` is a plain nested object. JavaScript exotic array
writes (an all-digit property name hitting an element slot, or
`length`) are not modelled; theorems touching `arr` properties keep to
ordinary named keys. -/
inductive Entry where
  | bool : Bool → Entry
  | num : Nat → Entry
  | float : String → Entry
  | str : String → Entry
  | arr : List String → List (String × PV) → Entry
  | obj : List (String × PV) → Entry
deriving DecidableEq, Repr

/-- Injection of a coerced scalar into a stored entry; a list becomes
an array with no extra properties. -/
def PV.toEntry : PV → Entry
  | .bool b => .bool b
  | .num n => .num n
  | .float s => .float s
  | .str s => .str s
  | .list xs => .arr xs []

/-- JavaScript `typeof existing === "object" && existing !== null` on a
stored entry: true exactly for arrays and nested objects. -/
def Entry.isObject : Entry → Bool
  | .arr _ _ => true
  | .obj _ => true
  | _ => false

/-- Test for the array case of an entry. -/
def Entry.isArr : Entry → Bool
  | .arr _ _ => true
  | _ => false

/-- Test for the string case of an entry
(JavaScript `typeof v === "string"`). -/
def Entry.isStr : Entry → Bool
  | .str _ => true
  | _ => false

/-- A JavaScript object as an insertion-ordered association list with
unique keys. -/
abbrev Config := List (String × Entry)

/-- First value stored under key `k` (JavaScript property read; keys
are unique by construction, so first = only). -/
def getAssoc {α : Type} : List (String × α) → String → Option α
  | [], _ => none
  | (k', v) :: rest, k => if k' = k then some v else getAssoc rest k

/-- JavaScript property assignment on an object literal: an existing
key keeps its position and gets the new value, a new key is appended
(insertion order). -/
def setAssoc {α : Type} (m : List (String × α)) (k : String) (v : α) :
    List (String × α) :=
  if m.any (fun p => p.1 == k) then
    m.map (fun p => if p.1 = k then (k, v) else p)
  else m ++ [(k, v)]

/-- Writes a named property onto an object-typed entry
(`(config[parentKey] as Record<string, unknown>)[childKey] = ...` in
`parseArgs`; only reached with an array or object entry). -/
def setChild (e : Entry) (k : String) (v : PV) : Entry :=
  match e with
  | .arr xs props => .arr xs (setAssoc props k v)
  | .obj props => .obj (setAssoc props k v)
  | e => e

/-- Stores one camel-cased key with its raw string value into the
configuration: lines 104–114 of `build.ts`. A dotted key is split at
every `.` and only the first two segments are used; if either is empty
the token is dropped; the parent entry is kept when it is already an
object (array or nested object), otherwise re-initialized to `{}`; the
coerced child value is then written onto it. A dot-free key stores the
coerced value directly, overwriting any prior entry. -/
def assignKV (cfg : Config) (key value : String) : Config :=
  if hasChar '.' key.data then
    match splitList '.' key.data with
    | parent :: child :: _ =>
      if parent ≠ [] ∧ child ≠ [] then
        let pk := String.mk parent
        let base : Entry :=
          match getAssoc cfg pk with
          | some e => if e.isObject then e else .obj []
          | none => .obj []
        setAssoc cfg pk (setChild base (String.mk child) (parseValue value))
      else cfg
    | _ => cfg
  else setAssoc cfg key ((parseValue value).toEntry)

/-- Lookahead test `args[i + 1]?.startsWith("--")` of `parseArgs`. -/
def nextIsFlag : List String → Bool
  | [] => false
  | a :: _ => startsWithChars ['-', '-'] a.data

/-- Splits the part of a `--key=value` token after `--` at `=`,
keeping the first two segments (JavaScript `split("=", 2)`; only
invoked on tokens containing `=`, so the one-segment case is
unreachable there). -/
def splitEq2 (l : List Char) : List Char × List Char :=
  match splitList '=' l with
  | [] => ([], [])
  | [a] => (a, [])
  | a :: b :: _ => (a, b)

/-- The token-scanning loop of `parseArgs` (lines 72–115 of
`build.ts`): per token, in order — skip non-`--` tokens; `--no-<key>`
sets the camel-cased key to `false`; a `=`-free flag whose successor is
absent or itself a flag sets the key to `true`; a token containing `=`
is split by `splitEq2`; otherwise the following token is consumed as
the value (`args[++i] ?? ""`). -/
def parseLoop : Config → List String → Config
  | cfg, [] => cfg
  | cfg, arg :: rest =>
    if !startsWithChars ['-', '-'] arg.data then parseLoop cfg rest
    else if startsWithChars ['-', '-', 'n', 'o', '-'] arg.data then
      parseLoop
        (setAssoc cfg (toCamelCase (String.mk (arg.data.drop 5))) (.bool false)) rest
    else if !hasChar '=' arg.data && (rest.isEmpty || nextIsFlag rest) then
      parseLoop
        (setAssoc cfg (toCamelCase (String.mk (arg.data.drop 2))) (.bool true)) rest
    else if hasChar '=' arg.data then
      let kv := splitEq2 (arg.data.drop 2)
      parseLoop (assignKV cfg (toCamelCase (String.mk kv.1)) (String.mk kv.2)) rest
    else
      match rest with
      | [] => parseLoop (assignKV cfg (toCamelCase (String.mk (arg.data.drop 2))) "") []
      | v :: rest' =>
        parseLoop (assignKV cfg (toCamelCase (String.mk (arg.data.drop 2))) v) rest'

/-- Parses CLI arguments (the tokens after the program name) into a
config object for the build call (`parseArgs` in `build.ts`). -/
def parseArgs (args : List String) : Config :=
  parseLoop [] args

/-- The while loop of `formatFileSize`: divide by 1024 and advance the
unit index while the size is at least 1024 and a larger unit remains
(`unitIndex < units.length - 1 = 3`). The fuel bounds the iterations;
`3` suffices because every iteration increments the index. Division of
a byte count below 2^53 by powers of 1024 is exact in doubles, so ℚ
models it exactly. -/
def sizeLoop : Nat → ℚ → Nat → ℚ × Nat
  | 0, size, unitIndex => (size, unitIndex)
  | fuel + 1, size, unitIndex =>
    if 1024 ≤ size ∧ unitIndex < 3 then sizeLoop fuel (size / 1024) (unitIndex + 1)
    else (size, unitIndex)

/-- Two-digit rendering of a number below 100 (the fractional part of
`toFixed(2)`). -/
def pad2 (n : Nat) : String :=
  if n < 10 then "0" ++ toString n else toString n

/-- JavaScript `toFixed(2)` on a non-negative number: round half up to
two decimals and print both decimal digits. -/
def toFixed2 (q : ℚ) : String :=
  let n : ℤ := ⌊q * 100 + 1 / 2⌋
  toString (n / 100) ++ "." ++ pad2 (n % 100).toNat

/-- Formats bytes into a human-readable size (`formatFileSize` in
`build.ts`): repeated division by 1024 over the unit table
`["B", "KB", "MB", "GB"]`, then `toFixed(2)` plus the unit. -/
def formatFileSize (bytes : Nat) : String :=
  let units := ["B", "KB", "MB", "GB"]
  let su := sizeLoop 3 (bytes : ℚ) 0
  toFixed2 su.1 ++ " " ++ units.getD su.2 ""

/-- One value of the merged build request passed to `Bun.build`:
either a configuration entry or the opaque plugin chain
(`plugins: [plugin]`). -/
inductive ReqVal where
  | ofEntry : Entry → ReqVal
  | pluginList : ReqVal
deriving DecidableEq, Repr

/-- The object literal passed to `Bun.build`, as an insertion-ordered
association list. -/
abbrev Request := List (String × ReqVal)

/-- Default `define` setting:
`{"process.env.NODE_ENV": JSON.stringify("production")}`. -/
def defineDefault : Entry :=
  .obj [("process.env.NODE_ENV", .str "\"production\"")]

/-- The named fields of the `Bun.build` argument before the spread of
the CLI config (lines 170–178 of `build.ts`), in literal order. -/
def baseRequest (entrypoints : List String) (outdir : String) : Request :=
  [("entrypoints", .ofEntry (.arr entrypoints [])),
   ("outdir", .ofEntry (.str outdir)),
   ("plugins", .pluginList),
   ("minify", .ofEntry (.bool true)),
   ("target", .ofEntry (.str "browser")),
   ("sourcemap", .ofEntry (.str "linked")),
   ("define", .ofEntry defineDefault)]

/-- JavaScript object spread `{...named, ...cliConfig}`: the CLI
entries are assigned over the base in their insertion order,
overriding same-named keys wholesale. -/
def spreadConfig (req : Request) (cfg : Config) : Request :=
  cfg.foldl (fun r p => setAssoc r p.1 (.ofEntry p.2)) req

/-- One artifact produced by the build (a `Bun.build` output record:
path, kind, byte size). -/
structure BuildOutput where
  path : String
  kind : String
  size : Nat
deriving DecidableEq, Repr

/-- The environment of one invocation: the argument vector, the current
working directory, and the observable behavior of the external
collaborators — the filesystem capability (existence check and
recursive removal), the synchronous glob scan of `src`, and the
delegated `Bun.build` call (its outputs, or the value it throws). -/
structure Env where
  argv : List String
  cwd : String
  fsExists : String → Bool
  fsRemove : String → Except String Unit
  scanSync : List String
  bunBuild : Request → Except String (List BuildOutput)

/-- The typed errors of the pipeline (`CleanError` / `BuildError` in
`src/lib/errors.ts`), with the cause payloads exactly as constructed in
`build.ts`: the clean failure carries the directory and the original
error; the build failure carries the original error, the entrypoints,
the outdir, and the CLI config (`config: cliConfig`). -/
inductive AppError where
  | cleanError (message : String) (directory : String) (originalError : String)
  | buildError (message : String) (originalError : String)
      (entrypoints : List String) (outdir : String) (config : Config)
deriving DecidableEq, Repr

/-- Pipeline stages that perform work, recorded in execution order:
directory removal, entrypoint discovery, the `Bun.build` call, and the
result-table report. -/
inductive Event where
  | clean
  | discover
  | build
  | report
deriving DecidableEq, Repr

instance {ε α : Type} [DecidableEq ε] [DecidableEq α] : DecidableEq (Except ε α) :=
  fun a b =>
    match a, b with
    | .ok x, .ok y => decidable_of_iff (x = y) (by simp)
    | .ok _, .error _ => .isFalse (fun h => Except.noConfusion h)
    | .error _, .ok _ => .isFalse (fun h => Except.noConfusion h)
    | .error x, .error y => decidable_of_iff (x = y) (by simp)

/-- Observable outcome of one pipeline run: the typed result, the
request passed to `Bun.build` (absent when cleaning failed first), and
the stages that ran. -/
structure RunResult where
  result : Except AppError (List BuildOutput)
  request : Option Request
  events : List Event
deriving DecidableEq, Repr

/-- Entrypoint discovery (lines 161–163 of `build.ts`): each glob
match under `src` is resolved to an absolute path (`path.resolve`
against the working directory; matches are relative, so this is
concatenation) and paths containing `node_modules` are dropped. -/
def entrypointsOf (env : Env) : List String :=
  (env.scanSync.map (fun a => env.cwd ++ "/src/" ++ a)).filter
    (fun d => !hasSubstr "node_modules".data d.data)

/-- The output directory (line 144 of `build.ts`): the CLI `outdir`
when it parsed to a string, else `path.join(cwd, "dist")`. -/
def outdirOf (env : Env) : String :=
  match getAssoc (parseArgs env.argv) "outdir" with
  | some (.str s) => s
  | _ => env.cwd ++ "/dist"

/-- The merged object passed to `Bun.build` (lines 169–180 of
`build.ts`): the named defaults with the CLI config spread over them. -/
def mergedRequest (env : Env) : Request :=
  spreadConfig (baseRequest (entrypointsOf env) (outdirOf env)) (parseArgs env.argv)

/-- The pipeline from entrypoint discovery onward: build the merged
request, run `Bun.build`, and either wrap the thrown value into a
`BuildError` (reporting never runs) or report the outputs. -/
def runBuild (env : Env) (ev0 : List Event) : RunResult :=
  let entrypoints := entrypointsOf env
  let req := mergedRequest env
  match env.bunBuild req with
  | .error e =>
    { result := .error (.buildError "Build failed" e entrypoints (outdirOf env)
        (parseArgs env.argv)),
      request := some req,
      events := ev0 ++ [.discover, .build] }
  | .ok outputs =>
    { result := .ok outputs,
      request := some req,
      events := ev0 ++ [.discover, .build, .report] }

/-- The main build program (`buildProgram` in `build.ts`): compute the
output directory from the parsed CLI config; if it exists, remove it
recursively, mapping a removal failure to a `CleanError` that aborts
the run; then discover, build and report. -/
def buildProgram (env : Env) : RunResult :=
  let outdir := outdirOf env
  if env.fsExists outdir then
    match env.fsRemove outdir with
    | .error e =>
      { result := .error (.cleanError ("Failed to clean directory: " ++ outdir)
          outdir e),
        request := none,
        events := [.clean] }
    | .ok _ => runBuild env [.clean]
  else runBuild env []

/-- Concrete environment: CLI `--target node`, no prior output
directory, empty scan, successful build with no outputs. -/
def envTarget : Env where
  argv := ["--target", "node"]
  cwd := "/w"
  fsExists := fun _ => false
  fsRemove := fun _ => .ok ()
  scanSync := []
  bunBuild := fun _ => .ok []

/-- Concrete environment: a standalone `--outdir` flag (parsing to the
boolean `true`), no prior output directory. -/
def envOutdirFlag : Env where
  argv := ["--outdir"]
  cwd := "/w"
  fsExists := fun _ => false
  fsRemove := fun _ => .ok ()
  scanSync := []
  bunBuild := fun _ => .ok []

/-- Concrete environment: CLI `--outdir=build`, two glob matches, no
prior output directory, and a build call that throws `"boom"`. -/
def envBuildThrow : Env where
  argv := ["--outdir=build"]
  cwd := "/w"
  fsExists := fun _ => false
  fsRemove := fun _ => .ok ()
  scanSync := ["a.html", "b.html"]
  bunBuild := fun _ => .error "boom"

/-- Concrete environment: the output directory exists and its recursive
removal fails with `"EACCES"`. -/
def envRemoveFail : Env where
  argv := []
  cwd := "/w"
  fsExists := fun _ => true
  fsRemove := fun _ => .error "EACCES"
  scanSync := ["a.html"]
  bunBuild := fun _ => .ok []

/-! ### Association-list lemmas -/

/-- The keys of an association list, in order. -/
def keysOf {α : Type} (m : List (String × α)) : List String :=
  m.map Prod.fst

theorem getAssoc_eq_none_iff {α : Type} (m : List (String × α)) (k : String) :
    getAssoc m k = none ↔ k ∉ keysOf m := by
  induction m with
  | nil => simp [getAssoc, keysOf]
  | cons hd tl ih =>
    obtain ⟨k', v⟩ := hd
    by_cases hk : k' = k
    · simp [getAssoc, hk, keysOf]
    · simp [getAssoc, hk, keysOf, ih]
      intro h
      exact fun h' => hk h'.symm

theorem getAssoc_append {α : Type} (m1 m2 : List (String × α)) (k : String) :
    getAssoc (m1 ++ m2) k =
      match getAssoc m1 k with
      | some v => some v
      | none => getAssoc m2 k := by
  induction m1 with
  | nil => simp [getAssoc]
  | cons hd tl ih =>
    obtain ⟨k', v⟩ := hd
    by_cases hk : k' = k
    · simp [getAssoc, hk]
    · simp [getAssoc, hk, ih]

theorem any_key_eq_false {α : Type} (m : List (String × α)) (k : String)
    (h : m.any (fun p => p.1 == k) = false) : getAssoc m k = none := by
  induction m with
  | nil => simp [getAssoc]
  | cons hd tl ih =>
    simp only [List.any_cons, Bool.or_eq_false_iff, beq_eq_false_iff_ne] at h
    simp [getAssoc, h.1, ih h.2]

theorem getAssoc_map_update {α : Type} (m : List (String × α)) (k : String) (v : α)
    (h : m.any (fun p => p.1 == k) = true) :
    getAssoc (m.map (fun p => if p.1 = k then (k, v) else p)) k = some v := by
  induction m with
  | nil => simp at h
  | cons hd tl ih =>
    obtain ⟨a, b⟩ := hd
    simp only [List.any_cons, Bool.or_eq_true, beq_iff_eq] at h
    by_cases hk : a = k
    · simp only [List.map_cons]
      rw [show (if ((a, b) : String × α).1 = k then (k, v) else (a, b)) = (k, v) by
        simp [hk]]
      simp [getAssoc]
    · have h' : (tl.any fun p => p.1 == k) = true := by
        rcases h with h | h
        · exact absurd h hk
        · exact h
      simp only [List.map_cons]
      rw [show (if ((a, b) : String × α).1 = k then (k, v) else (a, b)) = (a, b) by
        simp [hk]]
      simp [getAssoc, hk, ih h']

theorem getAssoc_map_update_ne {α : Type} (m : List (String × α)) (k k' : String) (v : α)
    (hne : k' ≠ k) :
    getAssoc (m.map (fun p => if p.1 = k then (k, v) else p)) k' = getAssoc m k' := by
  induction m with
  | nil => rfl
  | cons hd tl ih =>
    obtain ⟨a, b⟩ := hd
    by_cases hk : a = k
    · simp only [List.map_cons]
      rw [show (if ((a, b) : String × α).1 = k then (k, v) else (a, b)) = (k, v) by
        simp [hk]]
      subst hk
      simp [getAssoc, Ne.symm hne, ih]
    · simp only [List.map_cons]
      rw [show (if ((a, b) : String × α).1 = k then (k, v) else (a, b)) = (a, b) by
        simp [hk]]
      by_cases ha : a = k'
      · simp [getAssoc, ha]
      · simp [getAssoc, ha, ih]

theorem getAssoc_setAssoc_self {α : Type} (m : List (String × α)) (k : String) (v : α) :
    getAssoc (setAssoc m k v) k = some v := by
  unfold setAssoc
  split
  next h => exact getAssoc_map_update m k v h
  next h =>
    rw [getAssoc_append, any_key_eq_false m k (Bool.eq_false_iff.mpr h)]
    simp [getAssoc]

theorem getAssoc_setAssoc_ne {α : Type} (m : List (String × α)) (k k' : String) (v : α)
    (hne : k' ≠ k) : getAssoc (setAssoc m k v) k' = getAssoc m k' := by
  unfold setAssoc
  split
  next h => exact getAssoc_map_update_ne m k k' v hne
  next h =>
    rw [getAssoc_append]
    cases hm : getAssoc m k' with
    | some v' => simp
    | none => simp [getAssoc, Ne.symm hne]

theorem keysOf_setAssoc_mem {α : Type} (m : List (String × α)) (k : String) (v : α)
    (h : m.any (fun p => p.1 == k) = true) : keysOf (setAssoc m k v) = keysOf m := by
  unfold setAssoc
  rw [if_pos h]
  unfold keysOf
  rw [List.map_map]
  refine List.map_congr_left (fun p _ => ?_)
  by_cases hk : p.1 = k
  · simp [hk]
  · simp [hk]

theorem nodup_keysOf_setAssoc {α : Type} (m : List (String × α)) (k : String) (v : α)
    (h : (keysOf m).Nodup) : (keysOf (setAssoc m k v)).Nodup := by
  by_cases ha : m.any (fun p => p.1 == k) = true
  · rw [keysOf_setAssoc_mem m k v ha]
    exact h
  · have hnone := any_key_eq_false m k (Bool.eq_false_iff.mpr ha)
    have hnotin : k ∉ keysOf m := (getAssoc_eq_none_iff m k).mp hnone
    unfold setAssoc
    rw [if_neg ha]
    unfold keysOf
    rw [List.map_append]
    simp only [List.map_cons, List.map_nil]
    refine List.nodup_append.mpr ⟨h, List.nodup_singleton k, ?_⟩
    intro x hx1 hx2
    simp only [List.mem_singleton] at hx2
    exact hnotin (hx2 ▸ hx1)

theorem getAssoc_spreadConfig (req : Request) (cfg : Config) (k : String)
    (h : (keysOf cfg).Nodup) :
    getAssoc (spreadConfig req cfg) k =
      match getAssoc cfg k with
      | some e => some (.ofEntry e)
      | none => getAssoc req k := by
  induction cfg generalizing req with
  | nil => simp [spreadConfig, getAssoc]
  | cons hd tl ih =>
    obtain ⟨k0, e0⟩ := hd
    have hk0 : k0 ∉ keysOf tl := by
      have := h
      unfold keysOf at this
      simp only [List.map_cons, List.nodup_cons] at this
      exact this.1
    have hnd : (keysOf tl).Nodup := by
      have := h
      unfold keysOf at this
      simp only [List.map_cons, List.nodup_cons] at this
      exact this.2
    have hstep : spreadConfig req ((k0, e0) :: tl) =
        spreadConfig (setAssoc req k0 (.ofEntry e0)) tl := by
      simp [spreadConfig]
    rw [hstep, ih _ hnd]
    by_cases hk : k = k0
    · subst hk
      rw [(getAssoc_eq_none_iff tl k).mpr hk0]
      simp [getAssoc, getAssoc_setAssoc_self]
    · cases htl : getAssoc tl k with
      | some e => simp [getAssoc, Ne.symm hk, htl]
      | none => simp [getAssoc, Ne.symm hk, htl, getAssoc_setAssoc_ne _ _ _ _ hk]

theorem nodup_keysOf_assignKV (cfg : Config) (k v : String)
    (h : (keysOf cfg).Nodup) : (keysOf (assignKV cfg k v)).Nodup := by
  unfold assignKV
  split
  · split
    · split
      · exact nodup_keysOf_setAssoc _ _ _ h
      · exact h
    · exact h
  · exact nodup_keysOf_setAssoc _ _ _ h

theorem nodup_keysOf_parseLoop (args : List String) (cfg : Config)
    (h : (keysOf cfg).Nodup) : (keysOf (parseLoop cfg args)).Nodup := by
  match args with
  | [] => exact h
  | arg :: rest =>
    unfold parseLoop
    split
    · exact nodup_keysOf_parseLoop rest cfg h
    · split
      · exact nodup_keysOf_parseLoop rest _ (nodup_keysOf_setAssoc _ _ _ h)
      · split
        · exact nodup_keysOf_parseLoop rest _ (nodup_keysOf_setAssoc _ _ _ h)
        · split
          · exact nodup_keysOf_parseLoop rest _ (nodup_keysOf_assignKV _ _ _ h)
          · split
            · exact nodup_keysOf_parseLoop [] _ (nodup_keysOf_assignKV _ _ _ h)
            · exact nodup_keysOf_parseLoop _ _ (nodup_keysOf_assignKV _ _ _ h)
termination_by args.length
decreasing_by all_goals (subst_vars; simp_arith)

theorem nodup_keysOf_parseArgs (args : List String) :
    (keysOf (parseArgs args)).Nodup :=
  nodup_keysOf_parseLoop args [] (by simp [keysOf])

/-! ### Character-list lemmas -/

theorem hasChar_iff_mem (c : Char) (l : List Char) : hasChar c l = true ↔ c ∈ l := by
  induction l with
  | nil => simp [hasChar]
  | cons x xs ih =>
    simp only [hasChar, Bool.or_eq_true, decide_eq_true_eq, List.mem_cons, ih]
    exact or_congr_left eq_comm

theorem splitList_of_no_sep (sep : Char) (l : List Char) (h : hasChar sep l = false) :
    splitList sep l = [l] := by
  induction l with
  | nil => rfl
  | cons x xs ih =>
    simp only [hasChar, Bool.or_eq_false_iff, decide_eq_false_iff_not] at h
    simp [splitList, h.1, ih h.2]

theorem splitList_append_sep (sep : Char) (xs ys : List Char)
    (h : hasChar sep xs = false) :
    splitList sep (xs ++ sep :: ys) = xs :: splitList sep ys := by
  induction xs with
  | nil => simp [splitList]
  | cons x xt ih =>
    simp only [hasChar, Bool.or_eq_false_iff, decide_eq_false_iff_not] at h
    simp [splitList, h.1, ih h.2]

theorem hasChar_of_splitList_cons_cons (sep : Char) (l p c : List Char)
    (t : List (List Char)) (h : splitList sep l = p :: c :: t) :
    hasChar sep l = true := by
  by_contra hc
  rw [splitList_of_no_sep sep l (Bool.eq_false_iff.mpr hc)] at h
  simp at h

theorem startsWithChars_append_sep_false (p xs : List Char) (c : Char) (r : List Char)
    (h : startsWithChars p xs = false) (hc : c ∉ p) :
    startsWithChars p (xs ++ c :: r) = false := by
  induction xs generalizing p with
  | nil =>
    cases p with
    | nil => simp [startsWithChars] at h
    | cons q qs =>
      have hq : ¬(q = c) := fun hqc => hc (hqc ▸ List.mem_cons_self q qs)
      simp [startsWithChars, hq]
  | cons x xt ih =>
    cases p with
    | nil => simp [startsWithChars] at h
    | cons q qs =>
      by_cases hqx : q = x
      · subst hqx
        rw [List.cons_append]
        rw [show startsWithChars (q :: qs) (q :: xt) = startsWithChars qs xt by
          simp [startsWithChars]] at h
        rw [show startsWithChars (q :: qs) (q :: (xt ++ c :: r)) =
            startsWithChars qs (xt ++ c :: r) by simp [startsWithChars]]
        exact ih qs h (fun hm => hc (List.mem_cons_of_mem _ hm))
      · rw [List.cons_append]
        simp [startsWithChars, hqx]

/-! ### Value-coercion lemmas (C7) -/

theorem isDigits_eq_false_of_comma (l : List Char) (h : hasChar ',' l = true) :
    isDigits l = false := by
  rw [hasChar_iff_mem] at h
  cases hall : l.all Char.isDigit with
  | false => simp [isDigits, hall]
  | true =>
    exfalso
    have := List.all_eq_true.mp hall ',' h
    exact absurd this (by decide)

theorem isFloatLit_chars (l : List Char) (h : isFloatLit l = true) :
    ∀ c ∈ l, c.isDigit = true ∨ c = '.' := by
  induction l with
  | nil => simp
  | cons x xs ih =>
    intro c hc
    by_cases hx : x = '.'
    · rw [isFloatLit, if_pos hx] at h
      rcases List.mem_cons.mp hc with hcx | hcs
      · exact Or.inr (hcx.trans hx)
      · exact Or.inl (List.all_eq_true.mp ((Bool.and_eq_true _ _).mp h).2 c hcs)
    · rw [isFloatLit, if_neg hx] at h
      obtain ⟨hxd, hrest⟩ := (Bool.and_eq_true _ _).mp h
      rcases List.mem_cons.mp hc with hcx | hcs
      · exact Or.inl (hcx ▸ hxd)
      · exact ih hrest c hcs

theorem isFloatLit_eq_false_of_comma (l : List Char) (h : hasChar ',' l = true) :
    isFloatLit l = false := by
  cases hf : isFloatLit l with
  | false => rfl
  | true =>
    exfalso
    rw [hasChar_iff_mem] at h
    rcases isFloatLit_chars l hf ',' h with hd | hd
    · exact absurd hd (by decide)
    · exact absurd hd (by decide)

/-- C7: a raw value containing a comma is coerced to the list of its
comma-separated substrings with surrounding whitespace trimmed; each
element is the trimmed substring verbatim, never re-coerced to a
boolean or number. -/
theorem parseValue_comma_list (value : String) (h : hasChar ',' value.data = true) :
    parseValue value =
      .list ((splitList ',' value.data).map (fun l => String.mk (trimChars l))) := by
  have h1 : value ≠ "true" := by rintro rfl; exact absurd h (by decide)
  have h2 : value ≠ "false" := by rintro rfl; exact absurd h (by decide)
  rw [parseValue, if_neg h1, if_neg h2]
  rw [isDigits_eq_false_of_comma _ h, isFloatLit_eq_false_of_comma _ h, h]
  simp

/-- Witness for C7 at the raw value `" a ,true,7"`: the elements keep
their textual form (`"true"` and `"7"` are not promoted). -/
theorem parseValue_comma_list_witness :
    hasChar ',' (" a ,true,7" : String).data = true ∧
      parseValue " a ,true,7" = .list ["a", "true", "7"] := by
  refine ⟨by decide, ?_⟩
  rw [parseValue_comma_list " a ,true,7" (by decide)]
  decide

/-! ### Last-write-wins for negation flags (C8) -/

theorem parseLoop_no_splitting_last (xs : List String) (cfg : Config) :
    getAssoc (parseLoop cfg (xs ++ ["--no-splitting"])) "splitting" =
      some (Entry.bool false) := by
  match xs with
  | [] =>
    rw [List.nil_append,
      show parseLoop cfg ["--no-splitting"] = setAssoc cfg "splitting" (Entry.bool false)
        from rfl]
    exact getAssoc_setAssoc_self cfg _ _
  | arg :: rest =>
    rw [List.cons_append]
    unfold parseLoop
    split
    next h1 => exact parseLoop_no_splitting_last rest cfg
    next h1 =>
      split
      next h2 => exact parseLoop_no_splitting_last rest _
      next h2 =>
        split
        next h3 => exact parseLoop_no_splitting_last rest _
        next h3 =>
          split
          next h4 => exact parseLoop_no_splitting_last rest _
          next h4 =>
            split
            next heq => exact absurd heq (by simp)
            next v rest' heq =>
              cases rest with
              | nil =>
                exfalso
                apply h3
                rw [Bool.eq_false_iff.mpr h4]
                decide
              | cons w rest0 =>
                rw [List.cons_append] at heq
                obtain ⟨hv, hr⟩ := List.cons.inj heq
                rw [← hr]
                exact parseLoop_no_splitting_last rest0 _
termination_by xs.length
decreasing_by all_goals (subst_vars; simp_arith)

/-- C8: in every argument vector where `--no-splitting` comes after all
other tokens (in particular after any `--splitting`), the parsed
configuration maps `splitting` to the boolean `false`: the later
negation assignment wins in argument order. -/
theorem parseArgs_no_splitting_wins (xs : List String) :
    getAssoc (parseArgs (xs ++ ["--no-splitting"])) "splitting" =
      some (Entry.bool false) :=
  parseLoop_no_splitting_last xs []

/-! ### Size-formatter lemmas (C9) -/

theorem strAppend_assoc (a b c : String) : a ++ b ++ c = a ++ (b ++ c) := by
  apply String.ext
  simp [String.data_append]

theorem sizeLoop_stop (fuel : Nat) (s : ℚ) (u : Nat) (h : ¬(1024 ≤ s ∧ u < 3)) :
    sizeLoop fuel s u = (s, u) := by
  cases fuel with
  | zero => rfl
  | succ n => rw [sizeLoop, if_neg h]

theorem sizeLoop_step (fuel : Nat) (s : ℚ) (u : Nat) (h : 1024 ≤ s ∧ u < 3) :
    sizeLoop (fuel + 1) s u = sizeLoop fuel (s / 1024) (u + 1) := by
  rw [sizeLoop, if_pos h]

theorem formatFileSize_b (b : Nat) (hb : b < 1024) :
    formatFileSize b = toFixed2 (b : ℚ) ++ " B" := by
  have hq : ((b : ℚ)) < 1024 := by exact_mod_cast hb
  have h1 : ¬((1024 : ℚ) ≤ (b : ℚ) ∧ (0 : ℕ) < 3) := fun h => absurd h.1 (not_le.mpr hq)
  simp only [formatFileSize]
  rw [sizeLoop_stop 3 _ 0 h1, strAppend_assoc]
  rfl

theorem formatFileSize_kb (b : Nat) (hb1 : 1024 ≤ b) (hb2 : b < 1024 ^ 2) :
    formatFileSize b = toFixed2 ((b : ℚ) / 1024) ++ " KB" := by
  have hq1 : (1024 : ℚ) ≤ (b : ℚ) := by exact_mod_cast hb1
  have hq2 : ((b : ℚ)) / 1024 < 1024 := by
    rw [div_lt_iff (by norm_num : (0 : ℚ) < 1024)]
    calc ((b : ℚ)) < ((1024 ^ 2 : ℕ) : ℚ) := by exact_mod_cast hb2
    _ = 1024 * 1024 := by norm_num
  simp only [formatFileSize]
  rw [sizeLoop_step 2 _ 0 ⟨hq1, by norm_num⟩,
    sizeLoop_stop 2 _ 1 (fun h => absurd h.1 (not_le.mpr hq2)), strAppend_assoc]
  rfl

theorem formatFileSize_mb (b : Nat) (hb1 : 1024 ^ 2 ≤ b) (hb2 : b < 1024 ^ 3) :
    formatFileSize b = toFixed2 ((b : ℚ) / 1024 ^ 2) ++ " MB" := by
  have hq1 : ((1024 : ℚ)) ^ 2 ≤ (b : ℚ) := by exact_mod_cast hb1
  have h0 : (1024 : ℚ) ≤ (b : ℚ) := by nlinarith
  have h1 : (1024 : ℚ) ≤ (b : ℚ) / 1024 := by
    rw [le_div_iff (by norm_num : (0 : ℚ) < 1024)]
    nlinarith
  have h2 : ((b : ℚ)) / 1024 / 1024 < 1024 := by
    rw [div_div, div_lt_iff (by norm_num : (0 : ℚ) < 1024 * 1024)]
    calc ((b : ℚ)) < ((1024 ^ 3 : ℕ) : ℚ) := by exact_mod_cast hb2
    _ = 1024 * (1024 * 1024) := by norm_num
  have hdiv : ((b : ℚ)) / 1024 / 1024 = (b : ℚ) / 1024 ^ 2 := by ring
  simp only [formatFileSize]
  rw [sizeLoop_step 2 _ 0 ⟨h0, by norm_num⟩, sizeLoop_step 1 _ 1 ⟨h1, by norm_num⟩,
    sizeLoop_stop 1 _ 2 (fun h => absurd h.1 (not_le.mpr h2)), hdiv, strAppend_assoc]
  rfl

theorem formatFileSize_gb (b : Nat) (hb : 1024 ^ 3 ≤ b) :
    formatFileSize b = toFixed2 ((b : ℚ) / 1024 ^ 3) ++ " GB" := by
  have hq1 : ((1024 : ℚ)) ^ 3 ≤ (b : ℚ) := by exact_mod_cast hb
  have h0 : (1024 : ℚ) ≤ (b : ℚ) := by nlinarith
  have h1 : (1024 : ℚ) ≤ (b : ℚ) / 1024 := by
    rw [le_div_iff (by norm_num : (0 : ℚ) < 1024)]
    nlinarith
  have h2 : (1024 : ℚ) ≤ (b : ℚ) / 1024 / 1024 := by
    rw [div_div, le_div_iff (by norm_num : (0 : ℚ) < 1024 * 1024)]
    nlinarith
  have hdiv : ((b : ℚ)) / 1024 / 1024 / 1024 = (b : ℚ) / 1024 ^ 3 := by ring
  simp only [formatFileSize]
  rw [sizeLoop_step 2 _ 0 ⟨h0, by norm_num⟩, sizeLoop_step 1 _ 1 ⟨h1, by norm_num⟩,
    sizeLoop_step 0 _ 2 ⟨h2, by norm_num⟩, sizeLoop_stop 0 _ 3 (by omega), hdiv,
    strAppend_assoc]
  rfl

theorem pad2_length_two : ∀ f : Nat, f < 100 → (pad2 f).length = 2 := by decide

theorem toFixed2_shape (q : ℚ) (hq : 0 ≤ q) :
    ∃ (w : ℤ) (f : Nat), 0 ≤ w ∧ f < 100 ∧
      toFixed2 q = toString w ++ "." ++ pad2 f := by
  have hx : (0 : ℚ) ≤ q * 100 + 1 / 2 := by
    have := mul_nonneg hq (by norm_num : (0 : ℚ) ≤ 100)
    linarith
  have hn : 0 ≤ ⌊q * 100 + 1 / 2⌋ := Int.floor_nonneg.mpr hx
  refine ⟨⌊q * 100 + 1 / 2⌋ / 100, (⌊q * 100 + 1 / 2⌋ % 100).toNat, ?_, ?_, rfl⟩
  · exact Int.ediv_nonneg hn (by norm_num)
  · have h1 : 0 ≤ ⌊q * 100 + 1 / 2⌋ % 100 := Int.emod_nonneg _ (by norm_num)
    have h2 : ⌊q * 100 + 1 / 2⌋ % 100 < 100 := Int.emod_lt_of_pos _ (by norm_num)
    omega

/-- C9: for every non-negative byte count the unit is selected by
repeated division by 1024 — `B` below 1024, `KB` below 1024^2, `MB`
below 1024^3, and `GB` (the largest unit of the table) for everything
from 1024^3 up — and the output is the `toFixed(2)` rendering of the
divided value (an integer part, a dot, and exactly two decimal digits)
followed by a space and the unit. -/
theorem formatFileSize_unit_table (b : Nat) :
    ((b < 1024 → formatFileSize b = toFixed2 (b : ℚ) ++ " B") ∧
     (1024 ≤ b → b < 1024 ^ 2 →
       formatFileSize b = toFixed2 ((b : ℚ) / 1024) ++ " KB") ∧
     (1024 ^ 2 ≤ b → b < 1024 ^ 3 →
       formatFileSize b = toFixed2 ((b : ℚ) / 1024 ^ 2) ++ " MB") ∧
     (1024 ^ 3 ≤ b → formatFileSize b = toFixed2 ((b : ℚ) / 1024 ^ 3) ++ " GB")) ∧
    ∃ (w : ℤ) (f : Nat) (u : String), 0 ≤ w ∧ f < 100 ∧ (pad2 f).length = 2 ∧
      u ∈ (["B", "KB", "MB", "GB"] : List String) ∧
      formatFileSize b = toString w ++ "." ++ pad2 f ++ " " ++ u := by
  refine ⟨⟨formatFileSize_b b, formatFileSize_kb b, formatFileSize_mb b,
    formatFileSize_gb b⟩, ?_⟩
  rcases lt_or_le b 1024 with hA | hA
  · obtain ⟨w, f, hw, hf, heq⟩ := toFixed2_shape (b : ℚ) (by positivity)
    refine ⟨w, f, "B", hw, hf, pad2_length_two f hf, by simp, ?_⟩
    rw [formatFileSize_b b hA, heq, show (" B" : String) = " " ++ "B" from rfl,
      ← strAppend_assoc]
  · rcases lt_or_le b (1024 ^ 2) with hB | hB
    · obtain ⟨w, f, hw, hf, heq⟩ := toFixed2_shape ((b : ℚ) / 1024) (by positivity)
      refine ⟨w, f, "KB", hw, hf, pad2_length_two f hf, by simp, ?_⟩
      rw [formatFileSize_kb b hA hB, heq, show (" KB" : String) = " " ++ "KB" from rfl,
        ← strAppend_assoc]
    · rcases lt_or_le b (1024 ^ 3) with hC | hC
      · obtain ⟨w, f, hw, hf, heq⟩ := toFixed2_shape ((b : ℚ) / 1024 ^ 2) (by positivity)
        refine ⟨w, f, "MB", hw, hf, pad2_length_two f hf, by simp, ?_⟩
        rw [formatFileSize_mb b hB hC, heq,
          show (" MB" : String) = " " ++ "MB" from rfl, ← strAppend_assoc]
      · obtain ⟨w, f, hw, hf, heq⟩ := toFixed2_shape ((b : ℚ) / 1024 ^ 3) (by positivity)
        refine ⟨w, f, "GB", hw, hf, pad2_length_two f hf, by simp, ?_⟩
        rw [formatFileSize_gb b hC, heq,
          show (" GB" : String) = " " ++ "GB" from rfl, ← strAppend_assoc]

/-- Witness for C9 at concrete byte counts: the implications fire at
`500` (B branch) and at `2^30 = 1024^3` (GB branch, the cap). -/
theorem formatFileSize_unit_table_witness :
    (500 < 1024 ∧ formatFileSize 500 = "500.00 B") ∧
      (1024 ^ 3 ≤ 2 ^ 30 ∧ formatFileSize (2 ^ 30) = "1.00 GB") := by
  refine ⟨⟨by norm_num, ?_⟩, ⟨by norm_num, ?_⟩⟩
  · rw [(formatFileSize_unit_table 500).1.1 (by norm_num)]
    norm_num [toFixed2, pad2]
    rfl
  · rw [(formatFileSize_unit_table (2 ^ 30)).1.2.2.2 (by norm_num)]
    norm_num [toFixed2, pad2]
    rfl

/-! ### Pipeline evaluation lemmas -/

theorem runBuild_error (env : Env) (ev0 : List Event) (e : String)
    (hb : env.bunBuild (mergedRequest env) = .error e) :
    runBuild env ev0 =
      { result := .error (.buildError "Build failed" e (entrypointsOf env)
          (outdirOf env) (parseArgs env.argv)),
        request := some (mergedRequest env),
        events := ev0 ++ [.discover, .build] } := by
  simp only [runBuild, hb]

theorem runBuild_ok (env : Env) (ev0 : List Event) (outs : List BuildOutput)
    (hb : env.bunBuild (mergedRequest env) = .ok outs) :
    runBuild env ev0 =
      { result := .ok outs,
        request := some (mergedRequest env),
        events := ev0 ++ [.discover, .build, .report] } := by
  simp only [runBuild, hb]

theorem buildProgram_noexist (env : Env)
    (hex : env.fsExists (outdirOf env) = false) :
    buildProgram env = runBuild env [] := by
  simp [buildProgram, hex]

theorem buildProgram_exist_removed (env : Env)
    (hex : env.fsExists (outdirOf env) = true)
    (hrm : env.fsRemove (outdirOf env) = .ok ()) :
    buildProgram env = runBuild env [.clean] := by
  simp [buildProgram, hex, hrm]

theorem buildProgram_remove_fail (env : Env) (c : String)
    (hex : env.fsExists (outdirOf env) = true)
    (hrm : env.fsRemove (outdirOf env) = .error c) :
    buildProgram env =
      { result := .error (.cleanError ("Failed to clean directory: " ++ outdirOf env)
          (outdirOf env) c),
        request := none,
        events := [.clean] } := by
  simp [buildProgram, hex, hrm]

/-! ### Shallow-override merge (C5) -/

theorem getAssoc_mergedRequest (env : Env) (k : String) :
    getAssoc (mergedRequest env) k =
      match getAssoc (parseArgs env.argv) k with
      | some e => some (ReqVal.ofEntry e)
      | none => getAssoc (baseRequest (entrypointsOf env) (outdirOf env)) k := by
  rw [mergedRequest]
  exact getAssoc_spreadConfig _ _ k (nodup_keysOf_parseArgs env.argv)

/-- C5: the request passed to the build call is the named defaults with
the parsed CLI configuration shallow-spread over them — every top-level
key present in the CLI config keeps exactly its CLI value (wholesale,
nested maps included), and every key absent from the CLI config keeps
its value from the named defaults. -/
theorem mergedRequest_spread (env : Env) (k : String) :
    (∀ e, getAssoc (parseArgs env.argv) k = some e →
        getAssoc (mergedRequest env) k = some (ReqVal.ofEntry e)) ∧
    (getAssoc (parseArgs env.argv) k = none →
        getAssoc (mergedRequest env) k =
          getAssoc (baseRequest (entrypointsOf env) (outdirOf env)) k) := by
  constructor
  · intro e he
    rw [getAssoc_mergedRequest, he]
  · intro he
    rw [getAssoc_mergedRequest, he]

/-- Witness for C5 at `envTarget` (`--target node`): the CLI value
replaces the `target` default and the absent `minify` key keeps its
default `true`. -/
theorem mergedRequest_spread_witness :
    getAssoc (parseArgs envTarget.argv) "target" = some (Entry.str "node") ∧
    getAssoc (mergedRequest envTarget) "target" =
      some (ReqVal.ofEntry (Entry.str "node")) ∧
    getAssoc (parseArgs envTarget.argv) "minify" = none ∧
    getAssoc (mergedRequest envTarget) "minify" =
      some (ReqVal.ofEntry (Entry.bool true)) := by
  refine ⟨by decide, (mergedRequest_spread envTarget "target").1 _ (by decide),
    by decide, ?_⟩
  rw [(mergedRequest_spread envTarget "minify").2 (by decide)]
  decide

/-! ### Workspace cleaner contract (C6) -/

/-- C6: when the output directory does not exist the cleaner is a no-op
success — removal is never invoked and no `CleanError` can be the
outcome; when it exists and recursive removal fails, the run ends in a
`CleanError` carrying the directory path and the underlying cause, and
neither entrypoint discovery nor the build call runs. -/
theorem cleaner_contract (env : Env) :
    (env.fsExists (outdirOf env) = false →
      Event.clean ∉ (buildProgram env).events ∧
      ∀ m d c, (buildProgram env).result ≠ .error (.cleanError m d c)) ∧
    (env.fsExists (outdirOf env) = true →
      ∀ c, env.fsRemove (outdirOf env) = .error c →
        (buildProgram env).result =
          .error (.cleanError ("Failed to clean directory: " ++ outdirOf env)
            (outdirOf env) c) ∧
        Event.discover ∉ (buildProgram env).events ∧
        Event.build ∉ (buildProgram env).events) := by
  constructor
  · intro hex
    rw [buildProgram_noexist env hex]
    cases hb : env.bunBuild (mergedRequest env) with
    | error e =>
      rw [runBuild_error env [] e hb]
      exact ⟨by simp, fun m d c h => by simp at h⟩
    | ok outs =>
      rw [runBuild_ok env [] outs hb]
      exact ⟨by simp, fun m d c h => by simp at h⟩
  · intro hex c hrm
    rw [buildProgram_remove_fail env c hex hrm]
    exact ⟨rfl, by simp, by simp⟩

/-- Witness for C6 at two concrete environments: `envTarget` (directory
absent: removal never runs, outcome is a success) and `envRemoveFail`
(removal fails: the run ends in the `CleanError` and neither discovery
nor build runs). -/
theorem cleaner_contract_witness :
    (Event.clean ∉ (buildProgram envTarget).events ∧
      (buildProgram envTarget).result ≠
        .error (.cleanError "Failed to clean directory: /w/dist" "/w/dist" "x")) ∧
    ((buildProgram envRemoveFail).result =
        .error (.cleanError "Failed to clean directory: /w/dist" "/w/dist" "EACCES") ∧
      Event.discover ∉ (buildProgram envRemoveFail).events ∧
      Event.build ∉ (buildProgram envRemoveFail).events) := by
  have h1 := (cleaner_contract envTarget).1 rfl
  have h2 := (cleaner_contract envRemoveFail).2 rfl "EACCES" rfl
  refine ⟨⟨h1.1, h1.2 "Failed to clean directory: /w/dist" "/w/dist" "x"⟩,
    h2.1.trans (by decide), h2.2.1, h2.2.2⟩

/-! ### Build failure cause and reporter bypass (C3) -/

/-- Counterexample to C3: at `envBuildThrow` the thrown build error is
wrapped with the parsed CLI configuration, not the full merged one —
the cause's config has no `minify` key while the merged request carries
the `minify: true` default. -/
theorem buildError_config_not_merged :
    (buildProgram envBuildThrow).result =
      .error (.buildError "Build failed" "boom"
        ["/w/src/a.html", "/w/src/b.html"] "build"
        [("outdir", Entry.str "build")]) ∧
    getAssoc ([("outdir", Entry.str "build")] : Config) "minify" = none ∧
    getAssoc (mergedRequest envBuildThrow) "minify" =
      some (ReqVal.ofEntry (Entry.bool true)) := by
  exact ⟨by decide, by decide, by decide⟩

/-- C3 amended: whenever the build call is reached (cleaning was
skipped or succeeded) and throws, the pipeline yields a `BuildError`
whose cause carries the original error, the discovered entrypoint set,
the output directory, and the parsed CLI configuration (not the merged
one), and the Result Reporter never runs. -/
theorem buildError_cause_and_no_report (env : Env) (e : String)
    (hclean : env.fsExists (outdirOf env) = false ∨
      env.fsRemove (outdirOf env) = .ok ())
    (hb : env.bunBuild (mergedRequest env) = .error e) :
    (buildProgram env).result =
      .error (.buildError "Build failed" e (entrypointsOf env) (outdirOf env)
        (parseArgs env.argv)) ∧
    Event.report ∉ (buildProgram env).events := by
  rcases hclean with hex | hrm
  · rw [buildProgram_noexist env hex, runBuild_error env [] e hb]
    exact ⟨rfl, by simp⟩
  · by_cases hex : env.fsExists (outdirOf env) = true
    · rw [buildProgram_exist_removed env hex hrm, runBuild_error env _ e hb]
      exact ⟨rfl, by simp⟩
    · rw [buildProgram_noexist env (Bool.eq_false_iff.mpr hex),
        runBuild_error env [] e hb]
      exact ⟨rfl, by simp⟩

/-- Witness for the amended C3 at `envBuildThrow`. -/
theorem buildError_cause_and_no_report_witness :
    (buildProgram envBuildThrow).result =
      .error (.buildError "Build failed" "boom"
        ["/w/src/a.html", "/w/src/b.html"] "build"
        [("outdir", Entry.str "build")]) ∧
    Event.report ∉ (buildProgram envBuildThrow).events := by
  have h := buildError_cause_and_no_report envBuildThrow "boom" (Or.inl rfl) rfl
  exact ⟨h.1.trans (by decide), h.2⟩

/-! ### Non-string outdir divergence (C10) -/

/-- C10: when the parsed CLI `outdir` value is not a string, the
directory the cleaner targets is the default `cwd/dist` while the
merged request's `outdir` field keeps the raw non-string CLI value —
the two never agree on a string value. -/
theorem outdir_divergence (env : Env) (e : Entry)
    (he : getAssoc (parseArgs env.argv) "outdir" = some e)
    (hs : e.isStr = false) :
    outdirOf env = env.cwd ++ "/dist" ∧
    getAssoc (mergedRequest env) "outdir" = some (ReqVal.ofEntry e) ∧
    getAssoc (mergedRequest env) "outdir" ≠
      some (ReqVal.ofEntry (Entry.str (outdirOf env))) := by
  have h1 : outdirOf env = env.cwd ++ "/dist" := by
    unfold outdirOf
    rw [he]
    cases e with
    | str s => simp [Entry.isStr] at hs
    | bool v => rfl
    | num v => rfl
    | float v => rfl
    | arr xs props => rfl
    | obj props => rfl
  have hmr : getAssoc (mergedRequest env) "outdir" = some (ReqVal.ofEntry e) := by
    rw [getAssoc_mergedRequest, he]
  refine ⟨h1, hmr, ?_⟩
  rw [hmr]
  intro hcontra
  have he' : e = Entry.str (outdirOf env) := by
    injection hcontra with h'
    injection h'
  rw [he'] at hs
  simp [Entry.isStr] at hs

/-- Witness for C10 at `envOutdirFlag` (standalone `--outdir`, parsing
to the boolean `true`): the cleaner targets `/w/dist` while the merged
request's `outdir` is the boolean `true`. -/
theorem outdir_divergence_witness :
    getAssoc (parseArgs envOutdirFlag.argv) "outdir" = some (Entry.bool true) ∧
    outdirOf envOutdirFlag = "/w/dist" ∧
    getAssoc (mergedRequest envOutdirFlag) "outdir" =
      some (ReqVal.ofEntry (Entry.bool true)) ∧
    getAssoc (mergedRequest envOutdirFlag) "outdir" ≠
      some (ReqVal.ofEntry (Entry.str (outdirOf envOutdirFlag))) := by
  have h := outdir_divergence envOutdirFlag (Entry.bool true) (by decide) (by decide)
  exact ⟨by decide, h.1.trans (by decide), h.2.1, h.2.2⟩

/-! ### Further split/prefix lemmas (C1, C2, C4) -/

theorem hasChar_append (c : Char) (l1 l2 : List Char) :
    hasChar c (l1 ++ l2) = (hasChar c l1 || hasChar c l2) := by
  induction l1 with
  | nil => simp [hasChar]
  | cons x xs ih => simp [hasChar, ih, Bool.or_assoc]

theorem splitList_ne_nil (sep : Char) (l : List Char) : splitList sep l ≠ [] := by
  cases l with
  | nil => simp [splitList]
  | cons c rest =>
    simp only [splitList]
    split <;> simp

theorem hasChar_false_of_splitList_single (sep : Char) (l x : List Char)
    (h : splitList sep l = [x]) : hasChar sep l = false := by
  induction l generalizing x with
  | nil => rfl
  | cons c rest ih =>
    simp only [splitList] at h
    by_cases hc : c = sep
    · rw [if_pos hc] at h
      exact absurd (List.cons.inj h).2 (splitList_ne_nil sep rest)
    · rw [if_neg hc] at h
      have htail := (List.cons.inj h).2
      cases hr : splitList sep rest with
      | nil => exact absurd hr (splitList_ne_nil sep rest)
      | cons y ys =>
        rw [hr] at htail
        simp at htail
        subst htail
        simp [hasChar, hc, ih y hr]

theorem setChild_isObject (e : Entry) (k : String) (v : PV)
    (h : e.isObject = true) : (setChild e k v).isObject = true := by
  cases e <;> simp [Entry.isObject, setChild] at h ⊢

/-! ### Dotted keys extend maps, non-dotted overwrite (C2) -/

/-- Counterexample to C2: after `--minify.whitespace=true` the key
`minify` holds a nested map, but the later `--no-minify` token replaces
it with the scalar `false`. -/
theorem nested_map_overwritten_by_scalar :
    getAssoc (parseArgs ["--minify.whitespace=true"]) "minify" =
      some (Entry.obj [("whitespace", PV.bool true)]) ∧
    getAssoc (parseArgs ["--minify.whitespace=true", "--no-minify"]) "minify" =
      some (Entry.bool false) ∧
    Entry.isObject (Entry.bool false) = false := by
  exact ⟨by decide, by decide, by decide⟩

/-- C2 amended: a dotted-key assignment never replaces an existing
nested-map entry — object-ness of every stored entry is preserved, the
parent map being only extended — but a non-dotted assignment to the
same top-level key (from `--key=value`, `--key value`, a standalone
`--key`, or `--no-key`) does overwrite it, nested map or not. -/
theorem dotted_extends_nondotted_overwrites (cfg : Config) (key value k : String)
    (e : Entry) :
    (hasChar '.' key.data = true → getAssoc cfg k = some e → e.isObject = true →
      ∃ e', getAssoc (assignKV cfg key value) k = some e' ∧ e'.isObject = true) ∧
    (hasChar '.' key.data = false →
      getAssoc (assignKV cfg key value) key = some ((parseValue value).toEntry)) := by
  constructor
  · intro hdot hget hobj
    obtain ⟨p, c, t, hsp⟩ : ∃ p c t, splitList '.' key.data = p :: c :: t := by
      cases h1 : splitList '.' key.data with
      | nil => exact absurd h1 (splitList_ne_nil '.' key.data)
      | cons p rest =>
        cases rest with
        | nil =>
          rw [hasChar_false_of_splitList_single '.' key.data p h1] at hdot
          exact absurd hdot (by simp)
        | cons c t => exact ⟨p, c, t, rfl⟩
    unfold assignKV
    rw [hdot, if_pos rfl]
    simp only [hsp]
    by_cases hpc : p ≠ [] ∧ c ≠ []
    · rw [if_pos hpc]
      by_cases hk : String.mk p = k
      · rw [hk]
        simp only [hget]
        rw [if_pos hobj]
        exact ⟨setChild e (String.mk c) (parseValue value),
          getAssoc_setAssoc_self cfg k _, setChild_isObject e _ _ hobj⟩
      · refine ⟨e, ?_, hobj⟩
        rw [getAssoc_setAssoc_ne cfg (String.mk p) k _ (fun h => hk h.symm)]
        exact hget
    · rw [if_neg hpc]
      exact ⟨e, hget, hobj⟩
  · intro hdot
    unfold assignKV
    rw [hdot, if_neg (by simp)]
    exact getAssoc_setAssoc_self cfg key _

/-- Witness for the amended C2: a dotted assignment onto an existing
`minify` map keeps it an object, while a non-dotted `minify` assignment
overwrites it with the coerced scalar. -/
theorem dotted_extends_nondotted_overwrites_witness :
    (∃ e', getAssoc (assignKV [("minify", Entry.obj [])] "minify.syntax" "1")
        "minify" = some e' ∧ e'.isObject = true) ∧
    getAssoc (assignKV [("minify", Entry.obj [])] "minify" "false") "minify" =
      some ((parseValue "false").toEntry) :=
  ⟨(dotted_extends_nondotted_overwrites [("minify", Entry.obj [])] "minify.syntax"
      "1" "minify" (Entry.obj [])).1 (by decide) (by decide) (by decide),
    (dotted_extends_nondotted_overwrites [("minify", Entry.obj [])] "minify"
      "false" "minify" (Entry.obj [])).2 (by decide)⟩

/-! ### Dotted-key parent initialization (C4) -/

/-- Counterexample to C4: with a prior list-of-string under `external`,
the dotted token does not re-initialize the parent to an empty nested
map — the array is kept and the child lands on it as a property. -/
theorem list_parent_not_discarded :
    getAssoc (parseArgs ["--external=a,b", "--external.x=1"]) "external" =
      some (Entry.arr ["a", "b"] [("x", PV.num 1)]) ∧
    Entry.arr ["a", "b"] [("x", PV.num 1)] ≠ Entry.obj [("x", PV.num 1)] := by
  exact ⟨by decide, by decide⟩

/-- C4 amended: for a dotted key `parent.child` (after normalization),
when the parent entry is absent or a non-object scalar the parser
re-initializes it to an empty nested map — discarding the scalar —
before storing the coerced child; but when the parent entry is an
object, including a list-of-string (a JavaScript array), it is kept and
the child is written onto it as a named property (for ordinary property
names on arrays; element-index and `length` writes are outside the
model). -/
theorem dotted_parent_init_or_extend (cfg : Config) (key value : String)
    (p c : List Char) (hsp : splitList '.' key.data = [p, c])
    (hp : p ≠ []) (hc : c ≠ []) :
    ((getAssoc cfg (String.mk p) = none ∨
       ∃ e, getAssoc cfg (String.mk p) = some e ∧ e.isObject = false) →
      getAssoc (assignKV cfg key value) (String.mk p) =
        some (Entry.obj [(String.mk c, parseValue value)])) ∧
    (∀ e, getAssoc cfg (String.mk p) = some e → e.isObject = true →
      (e.isArr = true → isDigits c = false ∧ String.mk c ≠ "length") →
      getAssoc (assignKV cfg key value) (String.mk p) =
        some (setChild e (String.mk c) (parseValue value))) := by
  have hdot : hasChar '.' key.data = true :=
    hasChar_of_splitList_cons_cons '.' key.data p c [] hsp
  constructor
  · intro hbase
    unfold assignKV
    rw [hdot, if_pos rfl]
    simp only [hsp]
    rw [if_pos ⟨hp, hc⟩]
    rcases hbase with hnone | ⟨e, hsome, hobj⟩
    · simp only [hnone]
      rw [getAssoc_setAssoc_self]
      rfl
    · simp only [hsome]
      rw [if_neg (by simp [hobj]), getAssoc_setAssoc_self]
      rfl
  · intro e hsome hobj hcaveat
    unfold assignKV
    rw [hdot, if_pos rfl]
    simp only [hsp]
    rw [if_pos ⟨hp, hc⟩]
    simp only [hsome]
    rw [if_pos hobj, getAssoc_setAssoc_self]

/-- Witness for the amended C4 at concrete configurations: a prior
array under `external` is retained and extended with the property `x`,
while a prior string scalar under `banner` is discarded for an empty
nested map that receives the child. -/
theorem dotted_parent_init_or_extend_witness :
    getAssoc (assignKV [("external", Entry.arr ["a"] [])] "external.x" "1")
      "external" = some (Entry.arr ["a"] [("x", PV.num 1)]) ∧
    getAssoc (assignKV [("banner", Entry.str "t")] "banner.x" "1") "banner" =
      some (Entry.obj [("x", PV.num 1)]) := by
  have h1 := (dotted_parent_init_or_extend [("external", Entry.arr ["a"] [])]
    "external.x" "1" "external".data "x".data (by decide) (by decide) (by decide)).2
    (Entry.arr ["a"] []) (by decide) (by decide) (by decide)
  have h2 := (dotted_parent_init_or_extend [("banner", Entry.str "t")]
    "banner.x" "1" "banner".data "x".data (by decide) (by decide) (by decide)).1
    (Or.inr ⟨Entry.str "t", by decide, by decide⟩)
  exact ⟨h1.trans (by decide), h2.trans (by decide)⟩

/-! ### Key=value splitting keeps only two segments (C1) -/

/-- Counterexample to C1: `--banner=a=b` stores `"a"` under `banner`,
not `"a=b"` — `split("=", 2)` truncates, it does not keep the tail. -/
theorem banner_value_truncated :
    getAssoc (parseArgs ["--banner=a=b"]) "banner" = some (Entry.str "a") ∧
    Entry.str "a" ≠ Entry.str "a=b" := by
  exact ⟨by decide, by decide⟩

/-- C1 amended: a token `--<key>=<value>` is split at `=` keeping only
the first two segments: the stored value is the text between the first
and the second `=`, and any text from the second `=` on is discarded
(so `--banner=a=b` stores `"a"`). Stated for every key free of `=` and
(after camel normalization) of `.`, not starting with `no-`, and every
first segment free of `=`. -/
theorem eq_token_value_between_eqs (k a b : String)
    (hk1 : hasChar '=' k.data = false)
    (hk2 : hasChar '.' (toCamelCase k).data = false)
    (hk3 : startsWithChars ['n', 'o', '-'] k.data = false)
    (ha : hasChar '=' a.data = false) :
    parseArgs ["--" ++ k ++ "=" ++ a ++ "=" ++ b] =
      [(toCamelCase k, (parseValue a).toEntry)] := by
  have hdata : ("--" ++ k ++ "=" ++ a ++ "=" ++ b).data =
      '-' :: '-' :: (k.data ++ '=' :: (a.data ++ '=' :: b.data)) := by
    have h1 : ("--" : String).data = ['-', '-'] := rfl
    have h2 : ("=" : String).data = ['='] := rfl
    simp [String.data_append, h1, h2]
  have c1 : startsWithChars ['-', '-'] ("--" ++ k ++ "=" ++ a ++ "=" ++ b).data
      = true := by
    rw [hdata]; simp [startsWithChars]
  have c2 : startsWithChars ['-', '-', 'n', 'o', '-']
      ("--" ++ k ++ "=" ++ a ++ "=" ++ b).data = false := by
    rw [hdata]
    have hx := startsWithChars_append_sep_false ['n', 'o', '-'] k.data '='
      (a.data ++ '=' :: b.data) hk3 (by decide)
    simp [startsWithChars, hx]
  have c3 : hasChar '=' ("--" ++ k ++ "=" ++ a ++ "=" ++ b).data = true := by
    rw [hdata]
    simp [hasChar, hasChar_append]
  have c4 : ("--" ++ k ++ "=" ++ a ++ "=" ++ b).data.drop 2 =
      k.data ++ '=' :: (a.data ++ '=' :: b.data) := by
    rw [hdata]
    rfl
  have c5 : splitEq2 (k.data ++ '=' :: (a.data ++ '=' :: b.data)) =
      (k.data, a.data) := by
    unfold splitEq2
    rw [splitList_append_sep '=' _ _ hk1, splitList_append_sep '=' _ _ ha]
  have hmk : String.mk k.data = k := rfl
  have hma : String.mk a.data = a := rfl
  unfold parseArgs parseLoop
  rw [c1]
  simp only [Bool.not_true, Bool.false_eq_true, if_false, c2, c3, if_true,
    Bool.false_and, c4, c5]
  unfold parseLoop
  simp only [hmk, hma]
  unfold assignKV
  rw [hk2, if_neg (by simp)]
  simp [setAssoc]

/-- Witness for the amended C1 at `--banner=a=b`: the stored value is
the text between the two `=` signs. -/
theorem eq_token_value_between_eqs_witness :
    parseArgs ["--banner=a=b"] = [("banner", Entry.str "a")] := by
  have h := eq_token_value_between_eqs "banner" "a" "b"
    (by decide) (by decide) (by decide) (by decide)
  exact h

end BuildScript
